import Mathlib

/-!
Verification of `beniusij/go-app` (package `poker`).

A shallow embedding of the interactive play loop of `cli.go` together with the
Go standard-library functions it calls (`strings.Replace`, `strconv.Atoi`,
`bufio.Scanner` with the default `ScanLines` split function), and of the
player store described in the specification.

Go strings are immutable byte sequences, so a string is a list of bytes here.
Go's `int` is taken to be 64 bits wide (`strconv.intSize = 64`).
-/

namespace Poker

/-! ## Go strings -/

/-- A byte (`uint8`). -/
abbrev Byte := Fin 256

/-- A Go `string`: a finite sequence of bytes. -/
abbrev GoString := List Byte

/-- The bytes of a source-code string literal (its UTF-8 encoding). -/
def str (s : String) : GoString :=
  (s.toList.flatMap String.utf8EncodeChar).map UInt8.val

/-! ## `strings` -/

/-- Go `strings.Index(s, substr)`: the index of the first instance of `substr`
in `s`, or `-1` if `substr` is not present in `s`. -/
def Index : GoString → GoString → Int
  | [], substr => if substr.isPrefixOf [] then 0 else -1
  | c :: s, substr =>
    if substr.isPrefixOf (c :: s) then 0
    else
      let i := Index s substr
      if i < 0 then -1 else i + 1

/-- The loop of Go `strings.Count` for a non-empty `substr`:
`for { i := Index(s, substr); if i == -1 { return n }; n++; s = s[i+len(substr):] }`.
Every round removes at least one byte of `s`, so `len(s) + 1` rounds suffice;
the first argument bounds the number of rounds. -/
def countLoop (substr : GoString) : Nat → GoString → Int → Int
  | 0, _, n => n
  | fuel + 1, s, n =>
    let i := Index s substr
    if i = -1 then n
    else countLoop substr fuel (s.drop (i.toNat + substr.length)) (n + 1)

/-- Go `strings.Count(s, substr)` for a non-empty `substr`: the number of
non-overlapping instances of `substr` in `s`.  (For an empty `substr` Go counts
runes; that branch is excluded by the precondition.) -/
def Count (s substr : GoString) (_hsubstr : substr ≠ []) : Int :=
  countLoop substr (s.length + 1) s 0

/-- The replacement loop of Go `strings.Replace` for a non-empty `old`, on the
unread rest `s[start:]` of the string:
`for i := 0; i < n; i++ { j := start + Index(s[start:], old);
b.WriteString(s[start:j]); b.WriteString(new); start = j + len(old) }`
followed by `b.WriteString(s[start:])`. -/
def replaceLoop (old new : GoString) : Nat → GoString → GoString
  | 0, s => s
  | n + 1, s =>
    let j := (Index s old).toNat
    s.take j ++ new ++ replaceLoop old new n (s.drop (j + old.length))

/-- Go `strings.Replace(s, old, new, n)` for a non-empty `old`: a copy of `s`
with the first `n` non-overlapping instances of `old` replaced by `new`
(all of them if `n < 0`).  The branch `len(old) == 0`, which inserts `new`
between runes, is excluded by the precondition. -/
def Replace (s old new : GoString) (n : Int) (hold : old ≠ []) : GoString :=
  if old = new ∨ n = 0 then s
  else
    let m := Count s old hold
    if m = 0 then s
    else
      let n := if n < 0 ∨ m < n then m else n
      replaceLoop old new n.toNat s

/-! ## `cli.go`: `extractWinner` -/

/-- Source `extractWinner` in cli.go:
`return strings.Replace(userInput, " wins", "", 1)`. -/
def extractWinner (userInput : GoString) : GoString :=
  Replace userInput (str " wins") (str "") 1 (by decide)

/-! ## `strconv` -/

/-- The `Err` field of a `*strconv.NumError`. -/
inductive NumError where
  | ErrSyntax
  | ErrRange
  deriving DecidableEq, Repr

deriving instance DecidableEq for Except

/-- Go `strconv.intSize`, the size in bits of an `int`. -/
def intSize : Nat := 64

/-- Go `strconv.lower(c)`: `c | ('x' - 'X')`. -/
def lower (c : Byte) : Byte := c ||| 32

/-- The digit loop of Go `strconv.ParseUint(s, 10, 64)`, started with the
accumulator `n` (`uint64`, arithmetic modulo `2^64`):
a byte in `'0'..'9'` is the digit `c - '0'`; a letter is the digit
`lower(c) - 'a' + 10`; any other byte is a syntax error (the underscore case
needs `base == 0`); a digit `d >= base` is a syntax error; then
`if n >= cutoff { range error }; n *= 10; n1 := n + d;
if n1 < n || n1 > maxVal { range error }; n = n1`
with `cutoff = maxUint64/10 + 1` and `maxVal = 1<<64 - 1`. -/
def parseUintLoop : GoString → Nat → Except NumError Nat
  | [], n => .ok n
  | c :: cs, n =>
    let d? : Option Nat :=
      if 48 ≤ c.val ∧ c.val ≤ 57 then some (c.val - 48)
      else if 97 ≤ (lower c).val ∧ (lower c).val ≤ 122 then some ((lower c).val - 97 + 10)
      else none
    match d? with
    | none => .error .ErrSyntax
    | some d =>
      if d ≥ 10 then .error .ErrSyntax
      else if n ≥ (2 ^ 64 - 1) / 10 + 1 then .error .ErrRange
      else
        let n10 := (n * 10) % 2 ^ 64
        let n1 := (n10 + d) % 2 ^ 64
        if n1 < n10 ∨ n1 > 2 ^ 64 - 1 then .error .ErrRange
        else parseUintLoop cs n1

/-- Go `strconv.ParseUint(s, 10, 64)`: the empty string is a syntax error,
otherwise the digit loop decides.  Only the error or the value of a successful
parse is kept (on an error the callers below ignore the value). -/
def ParseUint (s : GoString) : Except NumError Nat :=
  if s = [] then .error .ErrSyntax else parseUintLoop s 0

/-- Go `strconv.ParseInt(s, 10, 0)` (bit size `intSize`): picks off a leading
sign, converts the rest with `ParseUint`, and checks the range against
`cutoff = 1 << (bitSize-1)`: without a sign `un >= cutoff` is a range error,
with `-` `un > cutoff` is one.  A range error of `ParseUint` leaves
`un = maxUint64` and so ends in a range error as well. -/
def ParseInt (s : GoString) : Except NumError Int :=
  match s with
  | [] => .error .ErrSyntax
  | c0 :: rest =>
    let neg : Bool := c0 = 45
    let s1 := if c0 = 43 ∨ c0 = 45 then rest else s
    match ParseUint s1 with
    | .error .ErrSyntax => .error .ErrSyntax
    | .error .ErrRange => .error .ErrRange
    | .ok un =>
      let cutoff : Nat := 2 ^ (intSize - 1)
      if ¬ neg ∧ un ≥ cutoff then .error .ErrRange
      else if neg ∧ un > cutoff then .error .ErrRange
      else .ok (if neg then -(un : Int) else (un : Int))

/-- The digit loop of the fast path of Go `strconv.Atoi`:
`for _, ch := range []byte(s) { ch -= '0'; if ch > 9 { syntax error };
n = n*10 + int(ch) }`.  The subtraction is on bytes and wraps.  The fast path
runs on fewer than 19 bytes, so `n` stays below `10^18` and the `int`
arithmetic does not overflow. -/
def atoiFastLoop : GoString → Int → Except NumError Int
  | [], n => .ok n
  | ch :: cs, n =>
    let ch : Byte := ch - 48
    if ch > 9 then .error .ErrSyntax
    else atoiFastLoop cs (n * 10 + (ch.val : Int))

/-- Go `strconv.Atoi(s)`: for `0 < len(s) < 19` (with `intSize == 64`; below
10 with `intSize == 32`) the fast path strips one sign byte and folds the
digits; every other string goes through `ParseInt(s, 10, 0)`.  The result is
the error, or the `int` of a successful conversion. -/
def Atoi (s : GoString) : Except NumError Int :=
  if (intSize = 32 ∧ 0 < s.length ∧ s.length < 10) ∨
      (intSize = 64 ∧ 0 < s.length ∧ s.length < 19) then
    match s with
    | [] => .error .ErrSyntax
    | c0 :: rest =>
      let signed : Bool := c0 = 45 ∨ c0 = 43
      let s1 := if signed then rest else s
      if signed ∧ s1.length < 1 then .error .ErrSyntax
      else
        match atoiFastLoop s1 0 with
        | .error e => .error e
        | .ok n => .ok (if c0 = 45 then -n else n)
  else ParseInt s

/-! ## `bufio.Scanner` with the default split function `ScanLines` -/

/-- Go `bufio.MaxScanTokenSize`: the largest buffer a `Scanner` allocates. -/
def MaxScanTokenSize : Nat := 64 * 1024

/-- Go `bytes.IndexByte(b, c)`: the index of the first `c` in `b`, or `-1`. -/
def IndexByte (b : GoString) (c : Byte) : Int :=
  if c ∈ b then (b.indexOf c : Int) else -1

/-- Go `bufio.dropCR`: drops a terminal `\r` from the data. -/
def dropCR (data : GoString) : GoString :=
  if data.getLast? = some 13 then data.dropLast else data

/-- Go `bufio.ScanLines(data, atEOF)`, returning `(advance, token)` with
`none` for a `nil` token (its error result is always `nil`). -/
def ScanLines (data : GoString) (atEOF : Bool) : Nat × Option GoString :=
  if atEOF ∧ data.length = 0 then (0, none)
  else
    let i := IndexByte data 10
    if i ≥ 0 then (i.toNat + 1, some (dropCR (data.take i.toNat)))
    else if atEOF then (data.length, some (dropCR data))
    else (0, none)

/-- The sticky error of a `bufio.Scanner` (`s.err`). -/
inductive ScanError where
  | EOF
  | ErrTooLong
  deriving DecidableEq, Repr

/-- A `bufio.Scanner` over a reader that delivers its bytes without I/O error
and reports the end of input by a separate empty read (as `strings.Reader`,
`bytes.Buffer` and files do).
`pending` is the input the scanner has not consumed yet: the unread part of
its buffer followed by what the reader still holds.  Once `err` is set no more
is read and `pending` is the unread part of the buffer alone. -/
structure Scanner where
  pending : GoString
  err : Option ScanError
  token : GoString
  deriving DecidableEq, Repr

/-- Go `bufio.NewScanner(r)` for a reader holding `r`. -/
def NewScanner (r : GoString) : Scanner :=
  { pending := r, err := none, token := [] }

/-- Go `(*Scanner).Scan`: advances to the next token and reports whether there
is one.
With `s.err` set, the split function gets the buffered data with `atEOF`, and
without a token the scanner shuts down.
Otherwise the buffer is filled, growing up to `MaxScanTokenSize` bytes, until
the split function finds a line in it; when the reader is exhausted first (the
end of input is seen with room left in the buffer) the split function gets all
of it with `atEOF`; when the buffer is full at its largest size the scanner
fails with `ErrTooLong` (`s.token` is `nil` then, from the last request for
more data). -/
def Scanner.Scan (s : Scanner) : Bool × Scanner :=
  match s.err with
  | some e =>
    match ScanLines s.pending true with
    | (advance, some token) =>
      (true, { pending := s.pending.drop advance, err := some e, token := token })
    | (_, none) => (false, { pending := [], err := some e, token := [] })
  | none =>
    let buf := s.pending.take MaxScanTokenSize
    match ScanLines buf false with
    | (advance, some token) =>
      (true, { pending := s.pending.drop advance, err := none, token := token })
    | (_, none) =>
      if s.pending.length < MaxScanTokenSize then
        match ScanLines s.pending true with
        | (advance, some token) =>
          (true, { pending := s.pending.drop advance, err := some .EOF, token := token })
        | (_, none) => (false, { pending := [], err := some .EOF, token := [] })
      else (false, { pending := buf, err := some .ErrTooLong, token := [] })

/-- Go `(*Scanner).Text`: the most recent token as a string. -/
def Scanner.Text (s : Scanner) : GoString := s.token

/-! ## `cli.go`: the interactive play loop -/

/-- An observable effect of the play loop: a write to `cli.out`, or a call of
a method of the `Game` interface (`Start` is passed `cli.out` as its alerts
destination). -/
inductive Event where
  | write (p : GoString)
  | start (numberOfPlayers : Int)
  | finish (winner : GoString)
  deriving DecidableEq, Repr

/-- Source `CLI` in cli.go: the scanner on the input (field `in`), and the
writer `out` and the `game`, both represented by the effects performed on
them so far, in order.  (The field `playerStore` is neither set by `NewCLI`
nor read by any method.) -/
structure CLI where
  in_ : Scanner
  effects : List Event
  deriving DecidableEq, Repr

/-- Source constant `PlayerPrompt`. -/
def PlayerPrompt : GoString := str "Please enter the number of players: "

/-- Source constant `BadPlayerInputErrMsg`. -/
def BadPlayerInputErrMsg : GoString :=
  str "Bad value received for number of players, please try again with a number"

/-- Source `NewCLI(in, out, game)`, for a reader holding `input` and a fresh
writer and game. -/
def NewCLI (input : GoString) : CLI :=
  { in_ := NewScanner input, effects := [] }

/-- Go `fmt.Fprint(w, a)` for a single string operand: the string is written
as it is. -/
def Fprint (a : GoString) : GoString := a

/-- Go `fmt.Fprintf(w, format)` without operands, for a format without a `%`
verb: the format is written as it is. -/
def Fprintf (format : GoString) (_hverbs : (37 : Byte) ∉ format) : GoString := format

/-- Source `(*CLI).readLine`: `cli.in.Scan(); return cli.in.Text()`. -/
def CLI.readLine (cli : CLI) : GoString × CLI :=
  let s := cli.in_.Scan.2
  (s.Text, { cli with in_ := s })

/-- Source `(*CLI).PlayPoker`. -/
def CLI.PlayPoker (cli : CLI) : CLI :=
  let cli := { cli with effects := cli.effects ++ [Event.write (Fprint PlayerPrompt)] }
  let (line, cli) := cli.readLine
  match Atoi line with
  | .error _ =>
    { cli with effects := cli.effects ++ [Event.write (Fprintf BadPlayerInputErrMsg (by decide))] }
  | .ok numberOfPlayers =>
    let cli := { cli with effects := cli.effects ++ [Event.start numberOfPlayers] }
    let (winnerInput, cli) := cli.readLine
    let winner := extractWinner winnerInput
    { cli with effects := cli.effects ++ [Event.finish winner] }

/-- The effects of `NewCLI(in, out, game).PlayPoker()` on `out` and `game`,
in order, for a reader holding `input`. -/
def playTrace (input : GoString) : List Event :=
  (NewCLI input).PlayPoker.effects

/-- What a trace wrote to `out`. -/
def output : List Event → GoString
  | [] => []
  | .write p :: es => p ++ output es
  | _ :: es => output es

/-- The arguments of the calls of `Game.Start` in a trace. -/
def startCalls : List Event → List Int
  | [] => []
  | .start n :: es => n :: startCalls es
  | _ :: es => startCalls es

/-- The arguments of the calls of `Game.Finish` in a trace. -/
def finishCalls : List Event → List GoString
  | [] => []
  | .finish w :: es => w :: finishCalls es
  | _ :: es => finishCalls es

/-- An input made of the given lines, each one ended by a newline. -/
def inputOfLines (lines : List GoString) : GoString :=
  (lines.map (fun l => l ++ [10])).flatten

/-- The decimal digits of `n`, most significant first, without leading zeros
(`"0"` for zero).  The first argument bounds the number of digits; `n + 1` is
always enough. -/
def natDigits : Nat → Nat → GoString
  | 0, _ => []
  | fuel + 1, n =>
    (if n < 10 then [] else natDigits fuel (n / 10)) ++ [⟨48 + n % 10, by omega⟩]

/-- Go `strconv.Itoa(i)`: the decimal representation of `i`, a `-` before the
digits of a negative number. -/
def Itoa (i : Int) : GoString :=
  if i < 0 then 45 :: natDigits (i.natAbs + 1) i.natAbs
  else natDigits (i.natAbs + 1) i.natAbs

/-- The line the first `readLine` of `PlayPoker` returns on `input`. -/
def firstLine (input : GoString) : GoString :=
  (NewScanner input).Scan.2.Text

/-- The input the scanner has not consumed after the first `readLine`. -/
def afterFirstLine (input : GoString) : GoString :=
  (NewScanner input).Scan.2.pending

/-- The line a second `readLine` returns on `input`. -/
def secondLine (input : GoString) : GoString :=
  (NewScanner input).Scan.2.Scan.2.Text

/-! ## The player store

The file-system player store (`NewFileSystemPlayerStore`, `GetLeague`,
`GetPlayerScore`, `RecordWin`) is exercised by `server_test.go`, but its
implementation is not among the source files.  It is modelled here from the
specification (§3, §4.1, §4.2). -/

/-- Modelled from the spec: the `Player` entity of §3, whose type declaration
is missing from the sources: a `Name` and a non-negative `Wins` count. -/
structure Player where
  Name : GoString
  Wins : Nat
  deriving DecidableEq, Repr

/-- Modelled from the spec: the `League` of §3, whose type declaration is
missing from the sources: an ordered sequence of players. -/
abbrev League := List Player

/-- Modelled from the spec: `find(name)` of §4.1, missing from the sources:
looks a player up by exact name match; `none` if absent. -/
def Find (l : League) (name : GoString) : Option Player :=
  l.find? (fun p => p.Name = name)

/-- Modelled from the spec: the league order of §3 (by `Wins` descending),
missing from the sources: `a` may stand before `b` when `a` has at least as
many wins. -/
def winsGE (a b : Player) : Prop := b.Wins ≤ a.Wins

instance : DecidableRel winsGE := fun a b => Nat.decLe b.Wins a.Wins

instance : IsTotal Player winsGE := ⟨fun a b => Nat.le_total b.Wins a.Wins⟩

instance : IsTrans Player winsGE := ⟨fun _ _ _ hab hbc => Nat.le_trans hbc hab⟩

/-- Modelled from the spec: the sorting contract of §4.1, missing from the
sources: the league view is ordered by `Wins` descending, ties staying in
their storage order (a stable sort, hence deterministic). -/
def sortLeague (l : League) : League :=
  l.insertionSort winsGE

/-- Modelled from the spec: the backing resource holding the durable record
of §3, which the sources only create in tests (`CreateTempFile`): the
sequence of player records it holds (none for an empty resource) and a read
cursor counting the records already read. -/
structure Resource where
  records : List Player
  pos : Nat
  deriving DecidableEq, Repr

/-- Modelled from the spec: resetting the read cursor of the backing resource
(§4.2, `GetLeague`). -/
def Resource.seekStart (r : Resource) : Resource :=
  { r with pos := 0 }

/-- Modelled from the spec: parsing the durable record from the read cursor on
(§4.2): yields the records after the cursor and leaves the cursor at the end;
an exhausted or empty resource yields an empty league. -/
def Resource.readAll (r : Resource) : League × Resource :=
  (r.records.drop r.pos, { r with pos := r.records.length })

/-- Modelled from the spec: the full overwrite of the durable record (§4.2,
`RecordWin`); the cursor is left after what was written. -/
def Resource.rewrite (_r : Resource) (l : League) : Resource :=
  { records := l, pos := l.length }

/-- Modelled from the spec: the `PlayerStore` of §4.2, missing from the
sources: the backing resource and the league held in memory. -/
structure FileSystemPlayerStore where
  database : Resource
  league : League
  deriving DecidableEq, Repr

/-- Modelled from the spec: construction (§4.2), missing from the sources:
the durable record is parsed eagerly, an empty resource giving an empty league.
(Malformed content, a construction error, is not representable in
`Resource`.) -/
def NewFileSystemPlayerStore (database : Resource) : FileSystemPlayerStore :=
  let (league, database) := database.seekStart.readAll
  { database := database, league := league }

/-- Modelled from the spec: `GetLeague()` of §4.2, missing from the sources:
resets the read cursor, parses the full durable record and returns the league
in descending-wins order; the league in memory is not changed by a read. -/
def FileSystemPlayerStore.GetLeague (f : FileSystemPlayerStore) :
    League × FileSystemPlayerStore :=
  let (league, database) := f.database.seekStart.readAll
  (sortLeague league, { f with database := database })

/-- Modelled from the spec: `GetPlayerScore(name)` of §4.2, missing from the
sources: the `Wins` of the named player as found in the current league, `0` if
the player is not present. -/
def FileSystemPlayerStore.GetPlayerScore (f : FileSystemPlayerStore) (name : GoString) : Nat :=
  match Find f.league name with
  | some player => player.Wins
  | none => 0

/-- Modelled from the spec: the increment of `RecordWin` (§4.2): the player
that `find` returns, the first of that name, gets one more win. -/
def incrementWins (name : GoString) : League → League
  | [] => []
  | p :: ps =>
    if p.Name = name then { p with Wins := p.Wins + 1 } :: ps
    else p :: incrementWins name ps

/-- Modelled from the spec: `RecordWin(name)` of §4.2, missing from the
sources: an existing player gets one more win, an unknown player is appended
with `Wins = 1`, and the durable record is rewritten in full from the updated
league. -/
def FileSystemPlayerStore.RecordWin (f : FileSystemPlayerStore) (name : GoString) :
    FileSystemPlayerStore :=
  let league :=
    match Find f.league name with
    | some _ => incrementWins name f.league
    | none => f.league ++ [{ Name := name, Wins := 1 }]
  { database := f.database.rewrite league, league := league }

/-! ## Facts about `strings.Index`, `strings.Count` and `strings.Replace` -/

theorem wins_bytes : str " wins" = [32, 119, 105, 110, 115] := by decide

theorem Index_ge (s substr : GoString) : -1 ≤ Index s substr := by
  induction s with
  | nil => unfold Index; split_ifs <;> omega
  | cons c s ih => unfold Index; simp only []; split_ifs <;> omega

theorem Index_eq_zero (s substr : GoString) (h : substr <+: s) : Index s substr = 0 := by
  have hp : substr.isPrefixOf s = true := List.isPrefixOf_iff_prefix.mpr h
  cases s with
  | nil => unfold Index; simp [hp]
  | cons c s => unfold Index; simp [hp]

theorem Index_cons_eq (c : Byte) (s substr : GoString) (h : ¬ substr <+: c :: s) :
    Index (c :: s) substr = if Index s substr < 0 then -1 else Index s substr + 1 := by
  have hp : ¬ substr.isPrefixOf (c :: s) = true := fun hp => h (List.isPrefixOf_iff_prefix.mp hp)
  rw [Index]
  simp [hp]

theorem Index_eq_neg_one_iff (s substr : GoString) : Index s substr = -1 ↔ ¬ substr <:+: s := by
  induction s with
  | nil =>
    by_cases h : substr <+: []
    · rw [Index_eq_zero _ _ h]
      simp [h.isInfix]
    · have hp : ¬ substr.isPrefixOf [] = true := fun hp => h (List.isPrefixOf_iff_prefix.mp hp)
      have hi : ¬ substr <:+: [] := by
        intro hi
        apply h
        rw [List.infix_nil] at hi
        simp [hi]
      unfold Index
      simp [hp, hi]
  | cons c s ih =>
    by_cases h : substr <+: c :: s
    · rw [Index_eq_zero _ _ h]
      simp [h.isInfix]
    · rw [Index_cons_eq _ _ _ h, List.infix_cons_iff]
      have hge := Index_ge s substr
      constructor
      · intro he
        split_ifs at he with hlt
        · have : Index s substr = -1 := by omega
          rintro (hc | hc)
          · exact h hc
          · exact (ih.mp this) hc
        · omega
      · intro hn
        have : Index s substr = -1 := ih.mpr (fun hc => hn (Or.inr hc))
        simp [this]

theorem Index_add_length_le (s substr : GoString) (h : Index s substr ≠ -1) :
    (Index s substr).toNat + substr.length ≤ s.length := by
  induction s with
  | nil =>
    have hi : substr <:+: [] := by
      by_contra hc
      exact h ((Index_eq_neg_one_iff _ _).mpr hc)
    rw [List.infix_nil] at hi
    subst hi
    simp [Index]
  | cons c s ih =>
    by_cases hp : substr <+: c :: s
    · rw [Index_eq_zero _ _ hp]
      simpa using hp.length_le
    · rw [Index_cons_eq _ _ _ hp] at h ⊢
      have hge := Index_ge s substr
      split_ifs at h ⊢ with hlt
      · exact absurd rfl h
      · have := ih (by omega)
        simp only [List.length_cons]
        omega

theorem Index_append_of_no_overlap (a substr b : GoString)
    (h : ∀ t, t ≠ [] → t <:+ a → ¬ substr <+: t ++ substr ++ b) :
    Index (a ++ substr ++ b) substr = a.length := by
  induction a with
  | nil =>
    simpa using Index_eq_zero (substr ++ b) substr (List.prefix_append _ _)
  | cons c a ih =>
    have hnp : ¬ substr <+: c :: (a ++ substr ++ b) := by
      simpa using h (c :: a) (List.cons_ne_nil _ _) List.suffix_rfl
    have hi := ih (fun t ht hs => h t ht (hs.trans (List.suffix_cons _ _)))
    have : c :: a ++ substr ++ b = c :: (a ++ substr ++ b) := by simp
    rw [this, Index_cons_eq _ _ _ hnp, hi]
    simp

theorem countLoop_ge (substr : GoString) (fuel : Nat) (s : GoString) (n : Int) :
    n ≤ countLoop substr fuel s n := by
  induction fuel generalizing s n with
  | zero => simp [countLoop]
  | succ fuel ih =>
    unfold countLoop
    simp only []
    split_ifs
    · exact le_refl _
    · have := ih (s.drop ((Index s substr).toNat + substr.length)) (n + 1)
      omega

/-- The bound on the rounds of `countLoop` is never reached: every bound above
`len(s)` gives the same count. -/
theorem countLoop_fuel (substr : GoString) (hsubstr : substr ≠ []) (fuel₁ fuel₂ : Nat)
    (s : GoString) (n : Int) (h₁ : s.length < fuel₁) (h₂ : s.length < fuel₂) :
    countLoop substr fuel₁ s n = countLoop substr fuel₂ s n := by
  induction fuel₁ generalizing fuel₂ s n with
  | zero => omega
  | succ fuel₁ ih =>
    obtain ⟨fuel₂, rfl⟩ : ∃ k, fuel₂ = k + 1 := ⟨fuel₂ - 1, by omega⟩
    unfold countLoop
    simp only []
    split_ifs with hi
    · rfl
    · have hle := Index_add_length_le s substr hi
      have hpos : 0 < substr.length := List.length_pos.mpr hsubstr
      have hlen : (s.drop ((Index s substr).toNat + substr.length)).length < s.length := by
        rw [List.length_drop]; omega
      exact ih fuel₂ _ _ (by omega) (by omega)

theorem Count_eq_zero_iff (s substr : GoString) (h : substr ≠ []) :
    Count s substr h = 0 ↔ Index s substr = -1 := by
  unfold Count countLoop
  simp only []
  split_ifs with hi
  · simp [hi]
  · have := countLoop_ge substr s.length (s.drop ((Index s substr).toNat + substr.length)) (0 + 1)
    constructor
    · intro h0; omega
    · intro h0; exact absurd h0 hi

theorem Count_nonneg (s substr : GoString) (h : substr ≠ []) : 0 ≤ Count s substr h :=
  countLoop_ge substr _ s 0

/-- What `extractWinner` computes: the input itself when `" wins"` does not
occur in it, and otherwise the input without its first occurrence. -/
theorem extractWinner_eq (s : GoString) :
    extractWinner s =
      if Index s (str " wins") = -1 then s
      else s.take (Index s (str " wins")).toNat ++
        s.drop ((Index s (str " wins")).toNat + 5) := by
  have hne : str " wins" ≠ [] := by decide
  have hnew : ¬ str " wins" = str "" := by decide
  have h0 := Count_eq_zero_iff s (str " wins") hne
  have hpos := Count_nonneg s (str " wins") hne
  unfold extractWinner Replace
  by_cases hi : Index s (str " wins") = -1
  · have hc := h0.mpr hi
    simp [hnew, hc, hi]
  · have hc : ¬ Count s (str " wins") hne = 0 := fun hc => hi (h0.mp hc)
    have hn : ¬ ((1 : Int) < 0 ∨ Count s (str " wins") hne < 1) := by omega
    have hlen : (str " wins").length = 5 := by decide
    have hemp : str "" = [] := by decide
    simp only [hnew, hc, hi, hn, if_false, false_or, one_ne_zero, Int.toNat_one, replaceLoop,
      hlen, hemp, List.append_nil]
    rw [if_neg (by simp [hne])]

theorem wins_no_overlap (a b t : GoString) (ha : ¬ str " wins" <:+: a) (ht : t ≠ [])
    (hs : t <:+ a) : ¬ str " wins" <+: t ++ str " wins" ++ b := by
  rw [wins_bytes] at ha ⊢
  intro hp
  rcases t with _ | ⟨x1, _ | ⟨x2, _ | ⟨x3, _ | ⟨x4, _ | ⟨x5, t⟩⟩⟩⟩⟩
  · exact ht rfl
  · simp [List.cons_prefix_cons] at hp
  · simp [List.cons_prefix_cons] at hp
  · simp [List.cons_prefix_cons] at hp
  · simp [List.cons_prefix_cons] at hp
  · apply ha
    simp [List.cons_prefix_cons] at hp
    obtain ⟨h1, h2, h3, h4, h5⟩ := hp
    subst h1 h2 h3 h4 h5
    exact (List.prefix_append _ t).isInfix.trans hs.isInfix

theorem extractWinner_of_not_infix (s : GoString) (h : ¬ str " wins" <:+: s) :
    extractWinner s = s := by
  rw [extractWinner_eq, if_pos ((Index_eq_neg_one_iff _ _).mpr h)]

theorem extractWinner_append (a b : GoString) (h : ¬ str " wins" <:+: a) :
    extractWinner (a ++ str " wins" ++ b) = a ++ b := by
  have hi := Index_append_of_no_overlap a (str " wins") b
    (fun t ht hs => wins_no_overlap a b t h ht hs)
  have hlen : (str " wins").length = 5 := by decide
  rw [extractWinner_eq, hi]
  have hne : ¬ ((a.length : Int) = -1) := by omega
  rw [if_neg hne]
  simp only [Int.toNat_ofNat]
  rw [List.append_assoc, List.take_left' rfl, ← hlen, ← List.length_append,
    ← List.append_assoc, List.drop_left' rfl]

/-! ## `strconv.Atoi` reads back what `strconv.Itoa` writes -/

theorem Itoa_values :
    Itoa 3 = str "3" ∧ Itoa 0 = str "0" ∧ Itoa (-120) = str "-120" ∧
    Itoa (2 ^ 63) = str "9223372036854775808" := by
  decide

theorem natDigits_ne_nil (fuel n : Nat) : natDigits (fuel + 1) n ≠ [] := by
  simp [natDigits]

theorem natDigits_digit (fuel n : Nat) :
    ∀ c ∈ natDigits fuel n, 48 ≤ c.val ∧ c.val ≤ 57 := by
  induction fuel generalizing n with
  | zero => simp [natDigits]
  | succ fuel ih =>
    intro c hc
    simp only [natDigits, List.mem_append, List.mem_singleton] at hc
    rcases hc with hc | hc
    · split_ifs at hc
      · simp at hc
      · exact ih _ c hc
    · subst hc
      simp only []
      omega

theorem parseUintLoop_append (xs ys : GoString) (n : Nat) :
    parseUintLoop (xs ++ ys) n =
      match parseUintLoop xs n with
      | .ok m => parseUintLoop ys m
      | .error e => .error e := by
  induction xs generalizing n with
  | nil => simp [parseUintLoop]
  | cons c cs ih =>
    simp only [List.cons_append, parseUintLoop]
    split
    · rfl
    · split_ifs
      · rfl
      · rfl
      · rfl
      · exact ih _

theorem atoiFastLoop_append (xs ys : GoString) (n : Int) :
    atoiFastLoop (xs ++ ys) n =
      match atoiFastLoop xs n with
      | .ok m => atoiFastLoop ys m
      | .error e => .error e := by
  induction xs generalizing n with
  | nil => simp [atoiFastLoop]
  | cons c cs ih =>
    simp only [List.cons_append, atoiFastLoop]
    split_ifs
    · rfl
    · exact ih _

theorem parseUintLoop_digit (d n : Nat) (hd : d < 10) (hn : n * 10 + d < 2 ^ 64) :
    parseUintLoop [⟨48 + d, by omega⟩] n = .ok (n * 10 + d) := by
  have h1 : (48 ≤ 48 + d ∧ 48 + d ≤ 57) := by omega
  have h2 : ¬ (48 + d - 48 ≥ 10) := by omega
  have h3 : ¬ (n ≥ (2 ^ 64 - 1) / 10 + 1) := by omega
  have h4 : (n * 10) % 2 ^ 64 = n * 10 := Nat.mod_eq_of_lt (by omega)
  have h5 : (n * 10 + (48 + d - 48)) % 2 ^ 64 = n * 10 + d := by
    rw [Nat.mod_eq_of_lt (by omega)]; omega
  have h6 : ¬ (n * 10 + d < n * 10 ∨ n * 10 + d > 2 ^ 64 - 1) := by omega
  simp only [parseUintLoop, h1, and_self, if_true, h2, h3, if_false, h4, h5, h6]

theorem atoiFastLoop_digit (d : Nat) (n : Int) (hd : d < 10) :
    atoiFastLoop [⟨48 + d, by omega⟩] n = .ok (n * 10 + d) := by
  have h : ((⟨48 + d, by omega⟩ : Byte) - 48) = ⟨d, by omega⟩ := by
    interval_cases d <;> rfl
  have h9 : ¬ ((⟨d, by omega⟩ : Byte) > 9) := by
    intro hgt
    change 9 < d at hgt
    omega
  simp only [atoiFastLoop, h, h9, if_false]

theorem parseUintLoop_natDigits (fuel n : Nat) (hf : n < fuel) (hn : n < 2 ^ 64) :
    parseUintLoop (natDigits fuel n) 0 = .ok n := by
  induction fuel generalizing n with
  | zero => omega
  | succ fuel ih =>
    rw [natDigits]
    by_cases h10 : n < 10
    · rw [if_pos h10, List.nil_append, parseUintLoop_digit (n % 10) 0 (by omega) (by omega)]
      congr 1; omega
    · rw [if_neg h10, parseUintLoop_append, ih (n / 10) (by omega) (by omega)]
      simp only []
      rw [parseUintLoop_digit (n % 10) (n / 10) (by omega) (by omega)]
      congr 1; omega

theorem atoiFastLoop_natDigits (fuel n : Nat) (hf : n < fuel) :
    atoiFastLoop (natDigits fuel n) 0 = .ok (n : Int) := by
  induction fuel generalizing n with
  | zero => omega
  | succ fuel ih =>
    rw [natDigits]
    by_cases h10 : n < 10
    · rw [if_pos h10, List.nil_append, atoiFastLoop_digit (n % 10) 0 (by omega)]
      congr 1; omega
    · rw [if_neg h10, atoiFastLoop_append, ih (n / 10) (by omega)]
      simp only []
      rw [atoiFastLoop_digit (n % 10) ((n / 10 : Nat) : Int) (by omega)]
      congr 1; omega

theorem Atoi_unsigned (s : GoString) (m : Nat) (hs : s ≠ [])
    (hd : ∀ c ∈ s, 48 ≤ c.val ∧ c.val ≤ 57)
    (hf : atoiFastLoop s 0 = .ok (m : Int)) (hp : parseUintLoop s 0 = .ok m)
    (hm : m < 2 ^ 63) : Atoi s = .ok (m : Int) := by
  obtain ⟨c0, rest, rfl⟩ := List.exists_cons_of_ne_nil hs
  have hc := hd c0 (List.mem_cons_self _ _)
  have h45 : c0 ≠ 45 := by
    intro h; rw [h] at hc; revert hc; decide
  have h43 : c0 ≠ 43 := by
    intro h; rw [h] at hc; revert hc; decide
  unfold Atoi
  split_ifs with hlen
  · simp [h45, h43, hf]
  · have hcut : ¬ (m ≥ 2 ^ (intSize - 1)) := by
      simp only [intSize]; omega
    simp [ParseInt, ParseUint, h45, h43, hp, hcut]

theorem Atoi_negative (s : GoString) (m : Nat) (hs : s ≠ [])
    (hf : atoiFastLoop s 0 = .ok (m : Int)) (hp : parseUintLoop s 0 = .ok m)
    (hm : m ≤ 2 ^ 63) : Atoi (45 :: s) = .ok (-(m : Int)) := by
  have hlen : ¬ s.length < 1 := by
    cases s with
    | nil => exact absurd rfl hs
    | cons c cs => simp
  unfold Atoi
  split_ifs with hl
  · simp [hf, hlen]
  · have hcut : ¬ (m > 2 ^ (intSize - 1)) := by
      simp only [intSize]; omega
    simp [ParseInt, ParseUint, hs, hp, hcut]

/-- Round trip: `Atoi` accepts the decimal representation of every `int`
and returns that `int`. -/
theorem Atoi_Itoa (i : Int) (hlo : -2 ^ 63 ≤ i) (hhi : i < 2 ^ 63) :
    Atoi (Itoa i) = .ok i := by
  unfold Itoa
  split_ifs with hneg
  · have := Atoi_negative (natDigits (i.natAbs + 1) i.natAbs) i.natAbs
      (natDigits_ne_nil _ _) (atoiFastLoop_natDigits _ _ (by omega))
      (parseUintLoop_natDigits _ _ (by omega) (by omega)) (by omega)
    rw [this]
    congr 1; omega
  · have := Atoi_unsigned (natDigits (i.natAbs + 1) i.natAbs) i.natAbs
      (natDigits_ne_nil _ _) (natDigits_digit _ _) (atoiFastLoop_natDigits _ _ (by omega))
      (parseUintLoop_natDigits _ _ (by omega) (by omega)) (by omega)
    rw [this]
    congr 1; omega

/-! ## The scanner on well-formed lines -/

theorem IndexByte_append_cons (l rest : GoString) (c : Byte) (h : c ∉ l) :
    IndexByte (l ++ c :: rest) c = l.length := by
  unfold IndexByte
  rw [if_pos (by simp), List.indexOf_append_of_not_mem h]
  simp

theorem IndexByte_of_not_mem (l : GoString) (c : Byte) (h : c ∉ l) : IndexByte l c = -1 := by
  unfold IndexByte
  rw [if_neg h]

/-- A line followed by a newline is delivered as it is (without a trailing
carriage return), whatever follows, as long as it fits the buffer. -/
theorem Scan_terminated_line (s : Scanner) (l rest : GoString)
    (hp : s.pending = l ++ 10 :: rest) (he : s.err = none) (hnl : (10 : Byte) ∉ l)
    (hlen : l.length < MaxScanTokenSize) :
    s.Scan = (true, { pending := rest, err := none, token := dropCR l }) := by
  have htake : (l ++ 10 :: rest).take MaxScanTokenSize
      = l ++ 10 :: rest.take (MaxScanTokenSize - l.length - 1) := by
    rw [List.take_append_eq_append_take, List.take_of_length_le (le_of_lt hlen)]
    obtain ⟨k, hk⟩ : ∃ k, MaxScanTokenSize - l.length = k + 1 :=
      ⟨MaxScanTokenSize - l.length - 1, by omega⟩
    rw [hk, List.take_succ_cons]
    simp
  have hsl : ScanLines (l ++ 10 :: rest.take (MaxScanTokenSize - l.length - 1)) false
      = (l.length + 1, some (dropCR l)) := by
    unfold ScanLines
    rw [IndexByte_append_cons _ _ _ hnl]
    simp
  unfold Scanner.Scan
  simp only [he, hp, htake, hsl]
  simp

/-- A last line without a newline is delivered as well, and the scanner has
seen the end of the input. -/
theorem Scan_final_line (s : Scanner) (l : GoString)
    (hp : s.pending = l) (he : s.err = none) (hne : l ≠ []) (hnl : (10 : Byte) ∉ l)
    (hlen : l.length < MaxScanTokenSize) :
    s.Scan = (true, { pending := [], err := some .EOF, token := dropCR l }) := by
  have hmem : (10 : Byte) ∉ l.take MaxScanTokenSize := fun h => hnl (List.mem_of_mem_take h)
  have hlen0 : ¬ l.length = 0 := fun h => hne (List.length_eq_zero.mp h)
  have h1 : ScanLines (l.take MaxScanTokenSize) false = (0, none) := by
    unfold ScanLines
    rw [IndexByte_of_not_mem _ _ hmem]
    simp
  have h2 : ScanLines l true = (l.length, some (dropCR l)) := by
    unfold ScanLines
    rw [IndexByte_of_not_mem _ _ hnl]
    simp [hlen0]
  unfold Scanner.Scan
  simp only [he, hp, h1, h2, hlen, if_true]
  simp

/-- A line that does not fit the buffer stops the scanner: no token, and
`ErrTooLong`. -/
theorem Scan_too_long (s : Scanner) (he : s.err = none)
    (hnl : (10 : Byte) ∉ s.pending.take MaxScanTokenSize)
    (hlen : MaxScanTokenSize ≤ s.pending.length) :
    s.Scan = (false, { pending := s.pending.take MaxScanTokenSize,
                       err := some .ErrTooLong, token := [] }) := by
  have h1 : ScanLines (s.pending.take MaxScanTokenSize) false = (0, none) := by
    unfold ScanLines
    rw [IndexByte_of_not_mem _ _ hnl]
    simp
  have h2 : ¬ s.pending.length < MaxScanTokenSize := by omega
  unfold Scanner.Scan
  simp only [he, h1, h2, if_false]

/-- The lines of an input are what `readLine` returns, one after the other (up
to a trailing carriage return). -/
theorem lines_of_inputOfLines (a b : GoString) (more : List GoString)
    (ha : (10 : Byte) ∉ a) (hla : a.length < MaxScanTokenSize)
    (hb : (10 : Byte) ∉ b) (hlb : b.length < MaxScanTokenSize) :
    firstLine (inputOfLines (a :: b :: more)) = dropCR a ∧
    secondLine (inputOfLines (a :: b :: more)) = dropCR b := by
  have hu : inputOfLines (a :: b :: more) = a ++ 10 :: (b ++ 10 :: inputOfLines more) := by
    simp [inputOfLines]
  have h1 := Scan_terminated_line (NewScanner (inputOfLines (a :: b :: more))) a
    (b ++ 10 :: inputOfLines more) hu rfl ha hla
  have h2 := Scan_terminated_line
    { pending := b ++ 10 :: inputOfLines more, err := none, token := dropCR a } b
    (inputOfLines more) rfl rfl hb hlb
  unfold firstLine secondLine
  rw [h1]
  simp only []
  rw [h2]
  exact ⟨rfl, rfl⟩

/-- Once nothing is pending, `Scan` yields the empty token. -/
theorem Scan_nothing_pending (s : Scanner) (h : s.pending = []) : s.Scan.2.Text = [] := by
  have h1 : ScanLines [] true = (0, none) := by decide
  have h2 : ScanLines [] false = (0, none) := by decide
  have h3 : (0 : Nat) < MaxScanTokenSize := by decide
  unfold Scanner.Scan Scanner.Text
  rw [h]
  cases s.err with
  | none => simp [h1, h2, h3]
  | some e => simp [h1]

/-! ## `PlayPoker` -/

theorem playTrace_of_Atoi_error (input : GoString) (e : NumError)
    (h : Atoi (firstLine input) = .error e) :
    playTrace input = [Event.write PlayerPrompt, Event.write BadPlayerInputErrMsg] := by
  unfold firstLine Scanner.Text at h
  simp [playTrace, CLI.PlayPoker, CLI.readLine, NewCLI, Scanner.Text, h, Fprintf, Fprint]

theorem playTrace_of_Atoi_ok (input : GoString) (n : Int)
    (h : Atoi (firstLine input) = .ok n) :
    playTrace input =
      [Event.write PlayerPrompt, Event.start n, Event.finish (extractWinner (secondLine input))] := by
  unfold firstLine Scanner.Text at h
  simp [playTrace, CLI.PlayPoker, CLI.readLine, NewCLI, Scanner.Text, h, secondLine, Fprint]

/-! ## The scenarios of `cli_test.go`

The tests send the lines `"3"`, `"Chris wins"` (and `"8"`, `"Cleo wins"`,
`"pies"`) through the helper `UserSends`; the traces are the same whether the
last line is ended by a newline or not. -/

theorem TestCLI_three_players_Chris_wins :
    playTrace (str "3\nChris wins")
      = [Event.write PlayerPrompt, Event.start 3, Event.finish (str "Chris")] ∧
    playTrace (str "3\nChris wins\n")
      = [Event.write PlayerPrompt, Event.start 3, Event.finish (str "Chris")] := by
  decide

theorem TestCLI_eight_players_Cleo_wins :
    playTrace (str "8\nCleo wins")
      = [Event.write PlayerPrompt, Event.start 8, Event.finish (str "Cleo")] ∧
    playTrace (str "8\nCleo wins\n")
      = [Event.write PlayerPrompt, Event.start 8, Event.finish (str "Cleo")] := by
  decide

theorem TestCLI_prompts_for_number_of_players :
    output (playTrace (str "7\n")) = PlayerPrompt ∧ startCalls (playTrace (str "7\n")) = [7] := by
  decide

theorem TestCLI_non_numeric_value :
    startCalls (playTrace (str "pies")) = [] ∧
    output (playTrace (str "pies")) = PlayerPrompt ++ BadPlayerInputErrMsg ∧
    startCalls (playTrace (str "pies\n")) = [] ∧
    output (playTrace (str "pies\n")) = PlayerPrompt ++ BadPlayerInputErrMsg := by
  decide

/-! ## Claims about `extractWinner` -/

/-- C1, counterexample: a name that itself contains `" wins"` does not come
back from its winner line: for the name `"Mr wins a lot"` the line
`"Mr wins a lot wins"` gives `"Mr a lot wins"`. -/
theorem extractWinner_name_containing_wins :
    extractWinner (str "Mr wins a lot" ++ str " wins") = str "Mr a lot wins" ∧
    extractWinner (str "Mr wins a lot" ++ str " wins") ≠ str "Mr wins a lot" := by
  decide

/-- C1, as amended: for every name that does not contain `" wins"`,
`extractWinner (name ++ " wins")` returns exactly the name. -/
theorem extractWinner_winner_line (name : GoString) (h : ¬ str " wins" <:+: name) :
    extractWinner (name ++ str " wins") = name := by
  simpa using extractWinner_append name [] h

theorem extractWinner_winner_line_witness :
    ¬ str " wins" <:+: str "Chris" ∧ extractWinner (str "Chris" ++ str " wins") = str "Chris" :=
  ⟨by decide, extractWinner_winner_line (str "Chris") (by decide)⟩

/-- C2, counterexample: the line `"Chris wins!"` does not end with `" wins"`,
and `extractWinner` changes it to `"Chris!"`. -/
theorem extractWinner_wins_inside_line :
    ¬ str " wins" <:+ str "Chris wins!" ∧
    extractWinner (str "Chris wins!") = str "Chris!" ∧
    extractWinner (str "Chris wins!") ≠ str "Chris wins!" := by
  decide

/-- C2, as amended: `extractWinner` returns its input unchanged exactly when
the input does not contain `" wins"` anywhere (not only at its end). -/
theorem extractWinner_unchanged_iff (userInput : GoString) :
    extractWinner userInput = userInput ↔ ¬ str " wins" <:+: userInput := by
  constructor
  · intro heq hin
    have hi : Index userInput (str " wins") ≠ -1 := fun hi =>
      (Index_eq_neg_one_iff _ _).mp hi hin
    have hlen := Index_add_length_le userInput (str " wins") hi
    have h5 : (str " wins").length = 5 := by decide
    rw [extractWinner_eq, if_neg hi] at heq
    have := congrArg List.length heq
    simp only [List.length_append, List.length_take, List.length_drop] at this
    omega
  · exact extractWinner_of_not_infix userInput

/-- C9: `extractWinner` removes exactly the first (leftmost) occurrence of
`" wins"` and nothing else: for all strings `a` and `b` where `a` does not
contain `" wins"`, `extractWinner (a ++ " wins" ++ b) = a ++ b`, and for every
string `s` that does not contain `" wins"`, `extractWinner s = s`. -/
theorem extractWinner_removes_first_occurrence :
    (∀ a b : GoString, ¬ str " wins" <:+: a →
      extractWinner (a ++ str " wins" ++ b) = a ++ b) ∧
    (∀ s : GoString, ¬ str " wins" <:+: s → extractWinner s = s) :=
  ⟨extractWinner_append, extractWinner_of_not_infix⟩

theorem extractWinner_removes_first_occurrence_witness :
    extractWinner (str "Mr" ++ str " wins" ++ str " a lot wins") = str "Mr" ++ str " a lot wins" ∧
    extractWinner (str "pies") = str "pies" :=
  ⟨extractWinner_removes_first_occurrence.1 (str "Mr") (str " a lot wins") (by decide),
   extractWinner_removes_first_occurrence.2 (str "pies") (by decide)⟩

/-! ## Claims about `PlayPoker` -/

/-- C3: for every input whose first line is not accepted by `strconv.Atoi`,
`PlayPoker` writes exactly `PlayerPrompt` followed by `BadPlayerInputErrMsg`
to the output and calls neither `Game.Start` nor `Game.Finish`. -/
theorem PlayPoker_bad_player_count (input : GoString)
    (h : ∀ n, Atoi (firstLine input) ≠ .ok n) :
    playTrace input = [Event.write PlayerPrompt, Event.write BadPlayerInputErrMsg] ∧
    output (playTrace input) = PlayerPrompt ++ BadPlayerInputErrMsg ∧
    startCalls (playTrace input) = [] ∧
    finishCalls (playTrace input) = [] := by
  cases hA : Atoi (firstLine input) with
  | ok n => exact absurd hA (h n)
  | error e =>
    rw [playTrace_of_Atoi_error input e hA]
    simp [output, startCalls, finishCalls]

theorem PlayPoker_bad_player_count_witness :
    (∀ n, Atoi (firstLine (str "pies\n")) ≠ .ok n) ∧
    playTrace (str "pies\n")
      = [Event.write PlayerPrompt, Event.write BadPlayerInputErrMsg] ∧
    output (playTrace (str "pies\n")) = PlayerPrompt ++ BadPlayerInputErrMsg ∧
    startCalls (playTrace (str "pies\n")) = [] ∧
    finishCalls (playTrace (str "pies\n")) = [] :=
  have h : ∀ n, Atoi (firstLine (str "pies\n")) ≠ .ok n := by
    have : Atoi (firstLine (str "pies\n")) = .error .ErrSyntax := by decide
    intro n hn
    rw [this] at hn
    cases hn
  ⟨h, PlayPoker_bad_player_count (str "pies\n") h⟩

/-- C4, counterexample: the integer `2^63 = 9223372036854775808` written in
decimal as the first line, with `"Chris wins"` as the second, does not start a
game: `Atoi` reports a range error, and the trace is the prompt followed by
the error message. -/
theorem PlayPoker_player_count_out_of_int_range :
    firstLine (str "9223372036854775808\nChris wins\n") = Itoa (2 ^ 63) ∧
    secondLine (str "9223372036854775808\nChris wins\n") = str "Chris wins" ∧
    playTrace (str "9223372036854775808\nChris wins\n")
      = [Event.write PlayerPrompt, Event.write BadPlayerInputErrMsg] ∧
    playTrace (str "9223372036854775808\nChris wins\n")
      ≠ [Event.write PlayerPrompt, Event.start (2 ^ 63),
          Event.finish (extractWinner (str "Chris wins"))] := by
  decide

/-- C4, as amended: for every integer `n` in the range of `int`
(`-2^63 ≤ n < 2^63`) whose decimal representation is the first line read and
every second line `w` read, the trace of `PlayPoker` is exactly: write
`PlayerPrompt` (and nothing else) to the output, then call `Game.Start` once
with `n`, then call `Game.Finish` once with `extractWinner w`. -/
theorem PlayPoker_starts_and_finishes (input w : GoString) (n : Int)
    (hlo : -2 ^ 63 ≤ n) (hhi : n < 2 ^ 63)
    (hfirst : firstLine input = Itoa n) (hsecond : secondLine input = w) :
    playTrace input
      = [Event.write PlayerPrompt, Event.start n, Event.finish (extractWinner w)] ∧
    output (playTrace input) = PlayerPrompt ∧
    startCalls (playTrace input) = [n] ∧
    finishCalls (playTrace input) = [extractWinner w] := by
  have hA : Atoi (firstLine input) = .ok n := by
    rw [hfirst]; exact Atoi_Itoa n hlo hhi
  rw [playTrace_of_Atoi_ok input n hA, hsecond]
  simp [output, startCalls, finishCalls]

theorem PlayPoker_starts_and_finishes_witness :
    firstLine (str "3\nChris wins\n") = Itoa 3 ∧
    secondLine (str "3\nChris wins\n") = str "Chris wins" ∧
    playTrace (str "3\nChris wins\n")
      = [Event.write PlayerPrompt, Event.start 3, Event.finish (str "Chris")] ∧
    output (playTrace (str "3\nChris wins\n")) = PlayerPrompt ∧
    startCalls (playTrace (str "3\nChris wins\n")) = [3] ∧
    finishCalls (playTrace (str "3\nChris wins\n")) = [str "Chris"] :=
  ⟨by decide, by decide,
    PlayPoker_starts_and_finishes (str "3\nChris wins\n") (str "Chris wins") 3
      (by decide) (by decide) (by decide) (by decide)⟩

/-- C10: whenever the first input line parses as an integer, `PlayPoker`
calls `Game.Finish` exactly once, even if the input has no further line: when
nothing is left of the input after the first line, `Finish` is called with the
empty string as winner. -/
theorem PlayPoker_finish_without_winner_line (input : GoString) (n : Int)
    (h : Atoi (firstLine input) = .ok n) :
    (finishCalls (playTrace input)).length = 1 ∧
    (afterFirstLine input = [] → finishCalls (playTrace input) = [[]]) := by
  rw [playTrace_of_Atoi_ok input n h]
  refine ⟨by simp [finishCalls], fun hrest => ?_⟩
  have h2 : secondLine input = [] := Scan_nothing_pending _ hrest
  have h0 : extractWinner [] = [] := by decide
  simp [finishCalls, h2, h0]

theorem PlayPoker_finish_without_winner_line_witness :
    Atoi (firstLine (str "7\n")) = .ok 7 ∧
    afterFirstLine (str "7\n") = [] ∧
    (finishCalls (playTrace (str "7\n"))).length = 1 ∧
    finishCalls (playTrace (str "7\n")) = [[]] :=
  have h := PlayPoker_finish_without_winner_line (str "7\n") 7 (by decide)
  ⟨by decide, by decide, h.1, h.2 (by decide)⟩

/-! ## The player store -/

theorem Find_incrementWins (name : GoString) (l : League) :
    Find (incrementWins name l) name =
      (Find l name).map (fun p => { p with Wins := p.Wins + 1 }) := by
  induction l with
  | nil => rfl
  | cons p ps ih =>
    unfold Find at ih ⊢
    by_cases h : p.Name = name
    · simp [incrementWins, h, List.find?_cons]
    · simp [incrementWins, h, List.find?_cons, ih]

theorem Find_append_new (name : GoString) (l : League) (wins : Nat)
    (h : Find l name = none) :
    Find (l ++ [{ Name := name, Wins := wins }]) name = some { Name := name, Wins := wins } := by
  unfold Find at h ⊢
  rw [List.find?_append, h]
  simp [List.find?_cons]

theorem GetLeague_eq (f : FileSystemPlayerStore) :
    f.GetLeague = (sortLeague f.database.records,
      { f with database := { f.database with pos := f.database.records.length } }) := by
  simp [FileSystemPlayerStore.GetLeague, Resource.readAll, Resource.seekStart]

/-- C5: for every durable record (with unique player names or not, and wherever
its read cursor stands), `GetLeague()` on the store constructed from it
returns exactly the players of the record, ordered so that `Wins` is
non-increasing from the first to the last entry; the record
`[Cleo 10, Chris 33]` is returned as `[Chris 33, Cleo 10]`. -/
theorem GetLeague_sorted (records : List Player) (pos : Nat) :
    (NewFileSystemPlayerStore { records := records, pos := pos }).GetLeague.1.Perm records ∧
    (NewFileSystemPlayerStore { records := records, pos := pos }).GetLeague.1.Pairwise
      (fun a b => b.Wins ≤ a.Wins) ∧
    (NewFileSystemPlayerStore
        { records := [⟨str "Cleo", 10⟩, ⟨str "Chris", 33⟩], pos := 0 }).GetLeague.1
      = [⟨str "Chris", 33⟩, ⟨str "Cleo", 10⟩] := by
  have h : (NewFileSystemPlayerStore { records := records, pos := pos }).GetLeague.1
      = sortLeague records := by
    simp [GetLeague_eq, NewFileSystemPlayerStore, Resource.readAll, Resource.seekStart]
  rw [h]
  exact ⟨List.perm_insertionSort winsGE records, List.sorted_insertionSort winsGE records,
    by decide⟩

theorem Find_isSome_iff (l : League) (name : GoString) :
    (Find l name).isSome ↔ ∃ p ∈ l, p.Name = name := by
  unfold Find
  rw [List.find?_isSome]
  simp

/-- C6: for every store and every name, after one `RecordWin(name)` the value
of `GetPlayerScore(name)` is the previous score plus 1 if the name was present
in the store, and 1 if it was absent. -/
theorem RecordWin_score (f : FileSystemPlayerStore) (name : GoString) :
    ((∃ p ∈ f.league, p.Name = name) →
      (f.RecordWin name).GetPlayerScore name = f.GetPlayerScore name + 1) ∧
    ((∀ p ∈ f.league, p.Name ≠ name) →
      (f.RecordWin name).GetPlayerScore name = 1) := by
  unfold FileSystemPlayerStore.RecordWin FileSystemPlayerStore.GetPlayerScore
  cases h : Find f.league name with
  | none =>
    have hno : ¬ ∃ p ∈ f.league, p.Name = name := by
      rw [← Find_isSome_iff, h]; simp
    exact ⟨fun hex => absurd hex hno, fun _ => by simp [Find_append_new name f.league 1 h]⟩
  | some p =>
    have hex : ∃ p ∈ f.league, p.Name = name := by
      rw [← Find_isSome_iff, h]; simp
    refine ⟨fun _ => by simp [Find_incrementWins, h], fun hall => ?_⟩
    obtain ⟨q, hq, hqn⟩ := hex
    exact absurd hqn (hall q hq)

theorem RecordWin_score_witness :
    ((NewFileSystemPlayerStore
        { records := [⟨str "Cleo", 10⟩, ⟨str "Chris", 33⟩], pos := 0 }).RecordWin
      (str "Chris")).GetPlayerScore (str "Chris") = 33 + 1 ∧
    ((NewFileSystemPlayerStore
        { records := [⟨str "Cleo", 10⟩, ⟨str "Chris", 33⟩], pos := 0 }).RecordWin
      (str "Pepper")).GetPlayerScore (str "Pepper") = 1 :=
  ⟨(RecordWin_score (NewFileSystemPlayerStore
      { records := [⟨str "Cleo", 10⟩, ⟨str "Chris", 33⟩], pos := 0 }) (str "Chris")).1
      ⟨⟨str "Chris", 33⟩, by decide, rfl⟩,
   (RecordWin_score (NewFileSystemPlayerStore
      { records := [⟨str "Cleo", 10⟩, ⟨str "Chris", 33⟩], pos := 0 }) (str "Pepper")).2
      (by decide)⟩

/-- C7: for every store, two consecutive `GetLeague()` calls with no
intervening `RecordWin` return equal leagues, and the second one has as many
entries as the durable record (it is neither truncated nor empty). -/
theorem GetLeague_twice (f : FileSystemPlayerStore) :
    f.GetLeague.2.GetLeague.1 = f.GetLeague.1 ∧
    f.GetLeague.2.GetLeague.1.length = f.database.records.length := by
  simp [GetLeague_eq, sortLeague, List.length_insertionSort]

/-- C8: for every store and every name that is not the name of any player in
it, `GetPlayerScore(name)` returns 0 (a total function: it does not fail). -/
theorem GetPlayerScore_absent (f : FileSystemPlayerStore) (name : GoString)
    (h : ∀ p ∈ f.league, p.Name ≠ name) : f.GetPlayerScore name = 0 := by
  have hfind : Find f.league name = none := by
    unfold Find
    rw [List.find?_eq_none]
    intro p hp
    simpa using h p hp
  simp [FileSystemPlayerStore.GetPlayerScore, hfind]

theorem GetPlayerScore_absent_witness :
    (∀ p ∈ (NewFileSystemPlayerStore
        { records := [⟨str "Cleo", 10⟩, ⟨str "Chris", 33⟩], pos := 0 }).league,
      p.Name ≠ str "Apollo") ∧
    (NewFileSystemPlayerStore
        { records := [⟨str "Cleo", 10⟩, ⟨str "Chris", 33⟩], pos := 0 }).GetPlayerScore
      (str "Apollo") = 0 :=
  ⟨by decide, GetPlayerScore_absent _ _ (by decide)⟩

end Poker
